import Mathlib

/-!
Verification of the transaction-lifecycle engine of tx-json-rpc-server.

The Go source is shallowly embedded:
* `TransactionStatus` and the `allowedTransitions` table (ethclient package),
* the in-memory store `map[string]types.Transaction`, modelled as an
  association list keyed by the (hash-determining) immutable content of a
  transaction,
* `changeTransactionStatus`, `StoreTransaction` and one tick of `MonitorGas`,
* the front-end validator `isValidHexRawTx` (rpc package).

A Go map is modelled as a list of entries with distinct keys; map assignment
is `mapInsert` (in-place update when the key is present, append otherwise),
and map iteration is traversal of the list.  The recovered sender of a
transaction is modelled as a field `sender : Option Nat` of the immutable
content (`none` means signature recovery fails).  A `nil` recipient pointer
(contract creation) is `to = none`, and dereferencing it is an explicit
panic outcome.
-/

namespace TxServer

/-- TransactionStatus enum of the types package. -/
inductive Status where
  | STORED
  | CANCELED
  | SPEDUP
  | FAILED
  | BROADCASTED
  deriving Repr, DecidableEq

/-- String method of TransactionStatus. -/
def Status.str : Status → String
  | .STORED => "STORED"
  | .CANCELED => "CANCELED"
  | .SPEDUP => "SPEDUP"
  | .FAILED => "FAILED"
  | .BROADCASTED => "BROADCASTED"

/-- Immutable content of a signed transaction: the accessors used by the
core (sender recovery result, nonce, recipient, value, payload, fee caps)
plus the raw encoding.  Since the transaction hash is an injective function
of the signed content, the content itself serves as the map key. -/
structure Core where
  sender : Option Nat
  nonce : Nat
  toAddr : Option Nat
  value : Int
  data : List Nat
  gasFeeCap : Int
  gasTipCap : Int
  raw : Nat
  deriving Repr, DecidableEq

/-- A stored record: transaction content plus its mutable status. -/
structure Entry where
  core : Core
  status : Status
  deriving Repr, DecidableEq

/-- The in-memory store `storedTransactions` (keys are the entry cores). -/
abbrev Store := List Entry

/-- The keys of the store. -/
def keys (s : Store) : List Core := s.map (·.core)

/-- Map lookup `ec.storedTransactions[hash]`. -/
def lookupTx : Store → Core → Option Entry
  | [], _ => none
  | e :: rest, c => if e.core = c then some e else lookupTx rest c

/-- Map assignment `ec.storedTransactions[hash] = tx`: update in place when
the key is present, append otherwise. -/
def mapInsert : Store → Core → Status → Store
  | [], c, st => [⟨c, st⟩]
  | e :: rest, c, st =>
      if e.core = c then ⟨c, st⟩ :: rest else e :: mapInsert rest c st

/-- Two's-complement wrap of 64-bit signed arithmetic: the value a Go
int64 expression takes, overflow included. -/
def wrap64 (x : Int) : Int := (x + 2 ^ 63) % 2 ^ 64 - 2 ^ 63

/-- `tx.GasFeeCap().Int64() + tx.GasTipCap().Int64()` as computed in
StoreTransaction and MonitorGas: Go's int64 addition wraps on overflow
(caps of 2^62 each sum to -2^63), so the sum is taken modulo 2^64 into
the signed 64-bit range. -/
def capSum (c : Core) : Int := wrap64 (c.gasFeeCap + c.gasTipCap)

/-- The allowedTransitions table of the ethclient package. -/
def allowedTransitions : Status → List Status
  | .STORED => [.CANCELED, .SPEDUP, .FAILED, .BROADCASTED]
  | .CANCELED => [.SPEDUP]
  | .SPEDUP => []
  | .FAILED => []
  | .BROADCASTED => []

/-- Errors of changeTransactionStatus. -/
inductive ChangeErr where
  | notFound
  | invalidTransition
  deriving Repr, DecidableEq

/-- changeTransactionStatus: look the hash up, check the transition against
the allowedTransitions table, and write the new status. -/
def changeTransactionStatus (s : Store) (c : Core) (newStatus : Status) :
    Except ChangeErr Store :=
  match lookupTx s c with
  | none => .error .notFound
  | some trx =>
      if newStatus ∈ allowedTransitions trx.status then
        .ok (mapInsert s c newStatus)
      else
        .error .invalidTransition

/-- Errors returned by StoreTransaction: the duplicate-hash error
(carrying the stored status, message "already STATUS") or an error
propagated from changeTransactionStatus on the speed-up path. -/
inductive IngestError where
  | duplicate (st : Status)
  | change (e : ChangeErr)
  deriving Repr, DecidableEq

/-- Outcome of a StoreTransaction call: a nil-pointer panic, an error
return (the store is left exactly as it was), or a nil return with the
resulting store. -/
inductive IngestResult where
  | panicked
  | failed (e : IngestError)
  | done (s : Store)
  deriving Repr, DecidableEq

/-- What the body of StoreTransaction's scan loop does with one stored
entry: return the duplicate error, continue, break (new-sender recovery
failed), panic on a nil recipient dereference, or enter the cancel or
speed-up branch. -/
inductive EntryAction where
  | dup (st : Status)
  | next
  | brk
  | panic
  | cancelHit
  | speedHit
  deriving Repr, DecidableEq

/-- Straight-line classification of one loop iteration of StoreTransaction:
duplicate-hash check, SPEDUP skip, sender recovery of the old then the new
transaction, the same-(sender, nonce) guard, then the cancel-pattern test
(which dereferences the new recipient pointer) and the speed-up-pattern
test (which also dereferences the old recipient). -/
def classifyEntry (tx : Core) (e : Entry) : EntryAction :=
  if e.core = tx then .dup e.status
  else if e.status = .SPEDUP then .next
  else
    match e.core.sender with
    | none => .next
    | some oldFrom =>
        match tx.sender with
        | none => .brk
        | some newFrom =>
            if oldFrom = newFrom ∧ tx.nonce = e.core.nonce then
              match tx.toAddr with
              | none => .panic
              | some txTo =>
                  if newFrom = txTo ∧ tx.value = 0 ∧ capSum tx > capSum e.core ∧
                      tx.data = [] then
                    .cancelHit
                  else
                    match e.core.toAddr with
                    | none => .panic
                    | some oldTo =>
                        if txTo = oldTo ∧ tx.value = e.core.value ∧
                            capSum tx > capSum e.core ∧ tx.data = e.core.data then
                          .speedHit
                        else .next
            else .next

/-- The scan loop of StoreTransaction.  `S` is the store (unchanged while
the loop runs, because every successful mutation is immediately followed by
a return), `l` the not-yet-visited entries, `isCanceling` the
`isCancelingTx` flag.  After the loop the transaction is stored fresh
unless a cancel was recognised. -/
def scanGo (tx : Core) (S : Store) : List Entry → Bool → IngestResult
  | [], isCanceling =>
      if isCanceling then .done S else .done (mapInsert S tx .STORED)
  | e :: rest, isCanceling =>
      match classifyEntry tx e with
      | .dup st => .failed (.duplicate st)
      | .next => scanGo tx S rest isCanceling
      | .brk =>
          if isCanceling then .done S else .done (mapInsert S tx .STORED)
      | .panic => .panicked
      | .cancelHit =>
          match changeTransactionStatus S e.core .CANCELED with
          | .error _ => scanGo tx S rest true
          | .ok s' => .done s'
      | .speedHit =>
          match changeTransactionStatus S e.core .SPEDUP with
          | .error err => .failed (.change err)
          | .ok s' => .done (mapInsert s' tx .STORED)

/-- StoreTransaction: scan the whole store, then fall through to the
fresh-store tail. -/
def ingest (s : Store) (tx : Core) : IngestResult :=
  scanGo tx s s false

/-- The store after a StoreTransaction call (unchanged on error or panic). -/
def stepIngest (s : Store) (tx : Core) : Store :=
  match ingest s tx with
  | .done s' => s'
  | _ => s

/-- A finite sequence of StoreTransaction calls starting from the empty
store. -/
def runIngest (txs : List Core) : Store :=
  txs.foldl stepIngest []

/-- Outcome of sendTransaction, the two-valued return `(rpcError, err)`:
success is `(false, nil)`, rpcError is `(true, err)` (the node answered
with a JSON-RPC error object), transportErr is `(false, err)`
(network, HTTP-status or decoding failure). -/
inductive SendOutcome where
  | success
  | rpcError
  | transportErr
  deriving Repr, DecidableEq

/-- changeTransactionStatus with the error logged and otherwise ignored,
as the MonitorGas loop does on both of its status updates. -/
def applyStatus (s : Store) (c : Core) (st : Status) : Store :=
  match changeTransactionStatus s c st with
  | .ok s' => s'
  | .error _ => s

/-- State of one MonitorGas tick over the shared store: the store, the
cores whose raw transactions were handed to sendTransaction (in order),
whether transactionsMutex is currently held by the monitor goroutine,
and whether that goroutine has hung on a Lock of the already-held mutex.
Once blocked, no further entry is visited and nothing changes. -/
structure TickState where
  store : Store
  sent : List Core
  locked : Bool
  blocked : Bool
  deriving Repr, DecidableEq

/-- The body of MonitorGas's per-entry loop, mutex included: skip
anything not STORED; skip when the (wrapped) cap sum is below the gas
price; otherwise Lock the mutex — which hangs the goroutine forever when
the mutex is still held from an earlier transport failure — send the raw
transaction, then on success Unlock and move the status to BROADCASTED,
on a node JSON-RPC error Unlock and move it to FAILED, and on a
transport error return to the loop without Unlock, leaving the mutex
held (the missing Unlock of the source's transport path). -/
def monitorStep (oc : Core → SendOutcome) (g : Int) (st : TickState)
    (e : Entry) : TickState :=
  if st.blocked then st
  else if e.status = .STORED then
    if capSum e.core ≥ g then
      if st.locked then ⟨st.store, st.sent, st.locked, true⟩
      else
        match oc e.core with
        | .success =>
            ⟨applyStatus st.store e.core .BROADCASTED,
              st.sent ++ [e.core], false, false⟩
        | .rpcError =>
            ⟨applyStatus st.store e.core .FAILED,
              st.sent ++ [e.core], false, false⟩
        | .transportErr =>
            ⟨st.store, st.sent ++ [e.core], true, false⟩
    else st
  else st

/-- One tick of MonitorGas after a successful eth_gasPrice fetch `g`:
iterate the loop body over the stored transactions, starting with the
mutex free. -/
def monitorTick (oc : Core → SendOutcome) (g : Int) (s : Store) :
    TickState :=
  s.foldl (monitorStep oc g) ⟨s, [], false, false⟩

/-- A JSON value arriving as the first element of `params`. -/
inductive Param where
  | str (s : String)
  | num (n : Int)
  | other
  deriving Repr, DecidableEq

/-- isValidHexRawTx of the rpc package.  `none` is a run-time panic:
the Go code evaluates the slice `rawTxStr[:2]` without checking the
length, which is out of range for strings shorter than two bytes.
`some none` means the validator returns nil, `some (some msg)` an error. -/
def isValidHexRawTx : Param → Option (Option String)
  | .str rawTxStr =>
      if rawTxStr.length < 2 then none
      else if rawTxStr.take 2 ≠ "0x" then some (some "invalid transaction hex")
      else some none
  | _ => some (some "the param is not a string")

/-- The set of permitted status transitions exactly as the claim lists
them.  This definition follows the specification's words; claim C3 states
that the code's changeTransactionStatus behaves according to it. -/
def specTransitionTable : List (Status × Status) :=
  [(.STORED, .CANCELED), (.STORED, .SPEDUP), (.STORED, .FAILED),
   (.STORED, .BROADCASTED), (.CANCELED, .SPEDUP)]

/-- The broadcast-eligibility test of the MonitorGas loop body: status is
STORED and the cap sum clears the gas price. -/
def eligible (g : Int) (e : Entry) : Bool :=
  decide (e.status = .STORED) && decide (capSum e.core ≥ g)

/-- The status a broadcast attempt leaves behind, per outcome of
sendTransaction: BROADCASTED on success, FAILED on a JSON-RPC error,
STORED (unchanged) on a transport error. -/
def broadcastOutcomeStatus : SendOutcome → Status
  | .success => .BROADCASTED
  | .rpcError => .FAILED
  | .transportErr => .STORED

/-! ### Lemmas about the store primitives -/

theorem lookupTx_mapInsert_self (s : Store) (c : Core) (st : Status) :
    lookupTx (mapInsert s c st) c = some ⟨c, st⟩ := by
  induction s with
  | nil => simp [mapInsert, lookupTx]
  | cons e rest ih =>
      by_cases h : e.core = c
      · simp [mapInsert, h, lookupTx]
      · simp [mapInsert, h, lookupTx, ih]

theorem lookupTx_mapInsert_ne (s : Store) {c c' : Core} (st : Status)
    (h : c' ≠ c) : lookupTx (mapInsert s c st) c' = lookupTx s c' := by
  induction s with
  | nil =>
      simp only [mapInsert, lookupTx]
      rw [if_neg (fun hc => h hc.symm)]
  | cons e rest ih =>
      by_cases hc : e.core = c
      · simp only [mapInsert, if_pos hc, lookupTx]
        rw [if_neg (fun hcc => h hcc.symm), if_neg (by rw [hc]; exact fun hcc => h hcc.symm)]
      · simp only [mapInsert, if_neg hc, lookupTx]
        by_cases hc' : e.core = c'
        · rw [if_pos hc', if_pos hc']
        · rw [if_neg hc', if_neg hc', ih]

theorem lookupTx_eq_none_iff (s : Store) (c : Core) :
    lookupTx s c = none ↔ c ∉ keys s := by
  induction s with
  | nil => simp [lookupTx, keys]
  | cons e rest ih =>
      have hk : keys (e :: rest) = e.core :: keys rest := rfl
      by_cases h : e.core = c
      · simp [lookupTx, h, hk]
      · simp only [lookupTx, if_neg h, hk, List.mem_cons, ih]
        constructor
        · intro hn hmem
          rcases hmem with h₁ | h₂
          · exact h h₁.symm
          · exact hn h₂
        · intro hn hmem
          exact hn (Or.inr hmem)

theorem mem_keys_of_lookupTx {s : Store} {c : Core} {e : Entry}
    (h : lookupTx s c = some e) : c ∈ keys s := by
  by_contra hc
  rw [← lookupTx_eq_none_iff] at hc
  rw [h] at hc
  exact Option.noConfusion hc

theorem lookupTx_of_nodup_mem {s : Store} {e : Entry}
    (hnd : (keys s).Nodup) (he : e ∈ s) : lookupTx s e.core = some e := by
  induction s with
  | nil => cases he
  | cons e₀ rest ih =>
      rcases List.mem_cons.mp he with h | h
      · subst h; simp [lookupTx]
      · have hne : e₀.core ≠ e.core := by
          intro hc
          have : e.core ∈ keys rest := List.mem_map_of_mem _ h
          rw [← hc] at this
          exact (List.nodup_cons.mp hnd).1 this
        simp only [lookupTx, if_neg hne]
        exact ih (List.nodup_cons.mp hnd).2 h

theorem entry_eq_of_core_eq {s : Store} {e₁ e₂ : Entry}
    (hnd : (keys s).Nodup) (h₁ : e₁ ∈ s) (h₂ : e₂ ∈ s)
    (hc : e₁.core = e₂.core) : e₁ = e₂ := by
  have l₁ := lookupTx_of_nodup_mem hnd h₁
  have l₂ := lookupTx_of_nodup_mem hnd h₂
  rw [hc, l₂] at l₁
  exact (Option.some.injEq _ _ ▸ l₁).symm

theorem mapInsert_not_mem {s : Store} {c : Core} (st : Status)
    (h : c ∉ keys s) : mapInsert s c st = s ++ [⟨c, st⟩] := by
  induction s with
  | nil => simp [mapInsert]
  | cons e rest ih =>
      have hk : keys (e :: rest) = e.core :: keys rest := rfl
      rw [hk] at h
      have h₁ : e.core ≠ c := fun hc => h (hc ▸ List.mem_cons_self _ _)
      have h₂ : c ∉ keys rest := fun hc => h (List.mem_cons_of_mem _ hc)
      simp only [mapInsert, if_neg h₁, List.cons_append, ih h₂]

theorem keys_mapInsert_mem {s : Store} {c : Core} (st : Status)
    (h : c ∈ keys s) : keys (mapInsert s c st) = keys s := by
  induction s with
  | nil => cases h
  | cons e rest ih =>
      have hk : keys (e :: rest) = e.core :: keys rest := rfl
      by_cases hc : e.core = c
      · show keys (if e.core = c then ⟨c, st⟩ :: rest else e :: mapInsert rest c st) = _
        rw [if_pos hc, hk]
        show c :: keys rest = e.core :: keys rest
        rw [hc]
      · have hmem : c ∈ keys rest := by
          rw [hk] at h
          rcases List.mem_cons.mp h with h' | h'
          · exact absurd h'.symm hc
          · exact h'
        show keys (if e.core = c then ⟨c, st⟩ :: rest else e :: mapInsert rest c st) = _
        rw [if_neg hc, hk]
        show e.core :: keys (mapInsert rest c st) = e.core :: keys rest
        rw [ih hmem]

theorem length_mapInsert_mem {s : Store} {c : Core} (st : Status)
    (h : c ∈ keys s) : (mapInsert s c st).length = s.length := by
  have hkeq : keys (mapInsert s c st) = keys s := keys_mapInsert_mem st h
  have hlen : (keys (mapInsert s c st)).length = (keys s).length := by
    rw [hkeq]
  simpa [keys] using hlen

theorem keys_mapInsert_nodup {s : Store} {c : Core} (st : Status)
    (hnd : (keys s).Nodup) : (keys (mapInsert s c st)).Nodup := by
  by_cases h : c ∈ keys s
  · rw [keys_mapInsert_mem st h]; exact hnd
  · rw [mapInsert_not_mem st h]
    simp only [keys, List.map_append, List.map_cons, List.map_nil]
    rw [List.nodup_append]
    refine ⟨hnd, List.nodup_singleton c, ?_⟩
    intro x hx hx'
    rw [List.mem_singleton] at hx'
    subst hx'
    exact h hx

theorem changeTransactionStatus_ok {s : Store} {c : Core} {st : Status}
    {e : Entry} (hl : lookupTx s c = some e)
    (ha : st ∈ allowedTransitions e.status) :
    changeTransactionStatus s c st = .ok (mapInsert s c st) := by
  simp [changeTransactionStatus, hl, ha]

theorem changeTransactionStatus_eq_ok {s s' : Store} {c : Core} {st : Status}
    (h : changeTransactionStatus s c st = .ok s') :
    s' = mapInsert s c st ∧ c ∈ keys s := by
  unfold changeTransactionStatus at h
  split at h
  · exact Except.noConfusion h
  · rename_i e hl
    split at h
    · exact ⟨(Except.ok.inj h).symm, mem_keys_of_lookupTx hl⟩
    · exact Except.noConfusion h

/-! ### Lemmas about the StoreTransaction scan loop -/

theorem scanGo_cons (tx : Core) (S : Store) (e : Entry) (l : List Entry)
    (b : Bool) :
    scanGo tx S (e :: l) b =
      match classifyEntry tx e with
      | .dup st => .failed (.duplicate st)
      | .next => scanGo tx S l b
      | .brk => if b then .done S else .done (mapInsert S tx .STORED)
      | .panic => .panicked
      | .cancelHit =>
          match changeTransactionStatus S e.core .CANCELED with
          | .error _ => scanGo tx S l true
          | .ok s' => .done s'
      | .speedHit =>
          match changeTransactionStatus S e.core .SPEDUP with
          | .error err => .failed (.change err)
          | .ok s' => .done (mapInsert s' tx .STORED) := rfl

theorem scanGo_cons_next {tx : Core} {S : Store} {e : Entry}
    (h : classifyEntry tx e = .next) (l : List Entry) (b : Bool) :
    scanGo tx S (e :: l) b = scanGo tx S l b := by
  rw [scanGo_cons, h]

theorem scanGo_append_next {tx : Core} {S : Store} {l₁ : List Entry}
    (h : ∀ e ∈ l₁, classifyEntry tx e = .next) (l₂ : List Entry) (b : Bool) :
    scanGo tx S (l₁ ++ l₂) b = scanGo tx S l₂ b := by
  induction l₁ with
  | nil => rfl
  | cons e rest ih =>
      rw [List.cons_append,
        scanGo_cons_next (h e (List.mem_cons_self _ _)) _ b,
        ih (fun e' he' => h e' (List.mem_cons_of_mem _ he'))]

theorem classifyEntry_no_sender {tx : Core} (e : Entry)
    (h : tx.sender = none) :
    classifyEntry tx e = .dup e.status ∨ classifyEntry tx e = .next ∨
      classifyEntry tx e = .brk := by
  unfold classifyEntry
  by_cases hd : e.core = tx
  · rw [if_pos hd]; exact Or.inl rfl
  · rw [if_neg hd]
    by_cases hs : e.status = .SPEDUP
    · rw [if_pos hs]; exact Or.inr (Or.inl rfl)
    · rw [if_neg hs]
      cases hos : e.core.sender with
      | none => exact Or.inr (Or.inl rfl)
      | some oldFrom => rw [h]; exact Or.inr (Or.inr rfl)

theorem scanGo_no_sender {tx : Core} (h : tx.sender = none) (S : Store) :
    ∀ l : List Entry,
      (∃ st, scanGo tx S l false = .failed (.duplicate st)) ∨
        scanGo tx S l false = .done (mapInsert S tx .STORED) := by
  intro l
  induction l with
  | nil => exact Or.inr rfl
  | cons e rest ih =>
      rcases classifyEntry_no_sender e h with hc | hc | hc
      · refine Or.inl ⟨e.status, ?_⟩
        rw [scanGo_cons, hc]
      · rw [scanGo_cons_next hc]
        exact ih
      · refine Or.inr ?_
        rw [scanGo_cons, hc]
        exact rfl

/-- Every store a nil return of StoreTransaction can produce: the input
store (swallowed cancel), a fresh insert, a cancel of a present key, or a
speed-up of a present key followed by a fresh insert. -/
theorem scanGo_done_shape {tx : Core} {S s' : Store} :
    ∀ {l : List Entry} {b : Bool}, scanGo tx S l b = .done s' →
      s' = S ∨ s' = mapInsert S tx .STORED ∨
        (∃ c ∈ keys S, s' = mapInsert S c .CANCELED) ∨
        (∃ c ∈ keys S, s' = mapInsert (mapInsert S c .SPEDUP) tx .STORED) := by
  intro l
  induction l with
  | nil =>
      intro b h
      unfold scanGo at h
      cases b with
      | true => exact Or.inl (IngestResult.done.inj h).symm
      | false => exact Or.inr (Or.inl (IngestResult.done.inj h).symm)
  | cons e rest ih =>
      intro b h
      unfold scanGo at h
      cases hc : classifyEntry tx e with
      | dup st => rw [hc] at h; exact IngestResult.noConfusion h
      | next => rw [hc] at h; exact ih h
      | brk =>
          rw [hc] at h
          cases b with
          | true => exact Or.inl (IngestResult.done.inj h).symm
          | false => exact Or.inr (Or.inl (IngestResult.done.inj h).symm)
      | panic => rw [hc] at h; exact IngestResult.noConfusion h
      | cancelHit =>
          rw [hc] at h
          cases hch : changeTransactionStatus S e.core .CANCELED with
          | error err => rw [hch] at h; exact ih h
          | ok s₁ =>
              rw [hch] at h
              obtain ⟨hform, hmem⟩ := changeTransactionStatus_eq_ok hch
              refine Or.inr (Or.inr (Or.inl ⟨e.core, hmem, ?_⟩))
              rw [← (IngestResult.done.inj h), hform]
      | speedHit =>
          rw [hc] at h
          cases hch : changeTransactionStatus S e.core .SPEDUP with
          | error err => rw [hch] at h; exact IngestResult.noConfusion h
          | ok s₁ =>
              rw [hch] at h
              obtain ⟨hform, hmem⟩ := changeTransactionStatus_eq_ok hch
              refine Or.inr (Or.inr (Or.inr ⟨e.core, hmem, ?_⟩))
              rw [← (IngestResult.done.inj h), hform]

theorem keys_subset_stepIngest (s : Store) (tx : Core) :
    ∀ c ∈ keys (stepIngest s tx), c ∈ keys s ∨ c = tx := by
  intro c hc
  unfold stepIngest at hc
  cases hr : ingest s tx with
  | panicked => rw [hr] at hc; exact Or.inl hc
  | failed e => rw [hr] at hc; exact Or.inl hc
  | done s' =>
      rw [hr] at hc
      rcases scanGo_done_shape hr with h | h | ⟨c₀, hc₀, h⟩ | ⟨c₀, hc₀, h⟩
      · rw [h] at hc; exact Or.inl hc
      · rw [h] at hc
        by_cases htx : tx ∈ keys s
        · rw [keys_mapInsert_mem _ htx] at hc; exact Or.inl hc
        · rw [mapInsert_not_mem _ htx] at hc
          simp only [keys, List.map_append, List.map_cons, List.map_nil,
            List.mem_append, List.mem_cons, List.not_mem_nil, or_false] at hc
          rcases hc with hc | hc
          · exact Or.inl hc
          · exact Or.inr hc
      · rw [h, keys_mapInsert_mem _ hc₀] at hc; exact Or.inl hc
      · rw [h] at hc
        by_cases htx : tx ∈ keys (mapInsert s c₀ .SPEDUP)
        · rw [keys_mapInsert_mem _ htx, keys_mapInsert_mem _ hc₀] at hc
          exact Or.inl hc
        · rw [mapInsert_not_mem _ htx] at hc
          simp only [keys, List.map_append, List.map_cons, List.map_nil,
            List.mem_append, List.mem_cons, List.not_mem_nil, or_false] at hc
          rcases hc with hc | hc
          · have : c ∈ keys (mapInsert s c₀ .SPEDUP) := hc
            rw [keys_mapInsert_mem _ hc₀] at this
            exact Or.inl this
          · exact Or.inr hc

theorem keys_nodup_stepIngest {s : Store} (tx : Core)
    (hnd : (keys s).Nodup) : (keys (stepIngest s tx)).Nodup := by
  unfold stepIngest
  cases hr : ingest s tx with
  | panicked => exact hnd
  | failed e => exact hnd
  | done s' =>
      rcases scanGo_done_shape hr with h | h | ⟨c₀, _, h⟩ | ⟨c₀, hc₀, h⟩
      · rw [h]; exact hnd
      · rw [h]; exact keys_mapInsert_nodup _ hnd
      · rw [h]; exact keys_mapInsert_nodup _ hnd
      · rw [h]; exact keys_mapInsert_nodup _ (keys_mapInsert_nodup _ hnd)

theorem runIngest_cores_mem :
    ∀ (txs : List Core) (s : Store), ∀ e ∈ txs.foldl stepIngest s,
      e.core ∈ keys s ∨ e.core ∈ txs := by
  intro txs
  induction txs with
  | nil =>
      intro s e he
      exact Or.inl (List.mem_map_of_mem _ he)
  | cons t rest ih =>
      intro s e he
      rw [List.foldl_cons] at he
      rcases ih (stepIngest s t) e he with h | h
      · rcases keys_subset_stepIngest s t _ h with h' | h'
        · exact Or.inl h'
        · exact Or.inr (h' ▸ List.mem_cons_self _ _)
      · exact Or.inr (List.mem_cons_of_mem _ h)

theorem runIngest_keys_nodup :
    ∀ (txs : List Core) (s : Store), (keys s).Nodup →
      (keys (txs.foldl stepIngest s)).Nodup := by
  intro txs
  induction txs with
  | nil => intro s h; exact h
  | cons t rest ih =>
      intro s h
      rw [List.foldl_cons]
      exact ih _ (keys_nodup_stepIngest t h)

/-! ### Claims C1 and C2 -/

/-- Claim C1, counterexample.  Two transactions with the same sender and
nonce and equal cap sums (but different recipients, hence different
hashes): the second one matches neither the cancel pattern (recipient is
not the sender) nor the speed-up pattern (its cap sum is not strictly
greater), so StoreTransaction stores it fresh and the store holds two
distinct STORED records with the same (sender, nonce). -/
theorem claim_C1_counterexample :
    ¬(∀ r₁ ∈ runIngest [(⟨some 1, 7, some 2, 5, [], 3, 2, 1⟩ : Core),
          ⟨some 1, 7, some 3, 5, [], 2, 3, 2⟩],
        ∀ r₂ ∈ runIngest [(⟨some 1, 7, some 2, 5, [], 3, 2, 1⟩ : Core),
          ⟨some 1, 7, some 3, 5, [], 2, 3, 2⟩],
        r₁ ≠ r₂ →
          ¬(r₁.status = .STORED ∧ r₂.status = .STORED ∧
            r₁.core.sender = r₂.core.sender ∧
            r₁.core.nonce = r₂.core.nonce)) := by
  decide

/-- Claim C1, amended: after any finite sequence of ingest calls starting
from the empty store, in which no two distinct ingested transactions share
the same (sender, nonce), there are no two distinct STORED records with
equal sender and equal nonce.  (The unrestricted claim fails: a
same-(sender, nonce) transaction whose caps do not strictly exceed the
stored record's is stored fresh beside it.) -/
theorem claim_C1_amended (txs : List Core)
    (hdist : ∀ t₁ ∈ txs, ∀ t₂ ∈ txs, t₁ ≠ t₂ →
      t₁.sender ≠ t₂.sender ∨ t₁.nonce ≠ t₂.nonce) :
    ∀ r₁ ∈ runIngest txs, ∀ r₂ ∈ runIngest txs, r₁ ≠ r₂ →
      ¬(r₁.status = .STORED ∧ r₂.status = .STORED ∧
        r₁.core.sender = r₂.core.sender ∧ r₁.core.nonce = r₂.core.nonce) := by
  intro r₁ h₁ r₂ h₂ hne hcontra
  obtain ⟨-, -, hs, hn⟩ := hcontra
  have hnil : (keys ([] : Store)).Nodup := by simp [keys]
  have hcne : r₁.core ≠ r₂.core := by
    intro hc
    exact hne (entry_eq_of_core_eq (runIngest_keys_nodup txs [] hnil) h₁ h₂ hc)
  have m₁ : r₁.core ∈ txs := by
    rcases runIngest_cores_mem txs [] r₁ h₁ with h | h
    · simp [keys] at h
    · exact h
  have m₂ : r₂.core ∈ txs := by
    rcases runIngest_cores_mem txs [] r₂ h₂ with h | h
    · simp [keys] at h
    · exact h
  rcases hdist _ m₁ _ m₂ hcne with h | h
  · exact h hs
  · exact h hn

/-- Witness for claim C1 at a concrete two-transaction sequence with
distinct senders. -/
theorem claim_C1_witness :
    (∀ t₁ ∈ [(⟨some 1, 1, some 2, 5, [], 3, 2, 1⟩ : Core),
        ⟨some 9, 1, some 2, 5, [], 3, 2, 2⟩],
      ∀ t₂ ∈ [(⟨some 1, 1, some 2, 5, [], 3, 2, 1⟩ : Core),
        ⟨some 9, 1, some 2, 5, [], 3, 2, 2⟩],
      t₁ ≠ t₂ → t₁.sender ≠ t₂.sender ∨ t₁.nonce ≠ t₂.nonce) ∧
    (∀ r₁ ∈ runIngest [(⟨some 1, 1, some 2, 5, [], 3, 2, 1⟩ : Core),
        ⟨some 9, 1, some 2, 5, [], 3, 2, 2⟩],
      ∀ r₂ ∈ runIngest [(⟨some 1, 1, some 2, 5, [], 3, 2, 1⟩ : Core),
        ⟨some 9, 1, some 2, 5, [], 3, 2, 2⟩],
      r₁ ≠ r₂ →
        ¬(r₁.status = .STORED ∧ r₂.status = .STORED ∧
          r₁.core.sender = r₂.core.sender ∧ r₁.core.nonce = r₂.core.nonce)) :=
  ⟨by decide, claim_C1_amended _ (by decide)⟩

/-- Claim C2, counterexample.  A transaction whose sender recovery fails
(`sender = none`), ingested into a store holding one unrelated record:
StoreTransaction does not abort — the scan breaks and falls through to the
fresh-store tail, inserting the transaction as STORED and returning nil. -/
theorem claim_C2_counterexample :
    (⟨none, 7, some 2, 5, [], 6, 4, 2⟩ : Core).sender = none ∧
    ingest [⟨⟨some 1, 7, some 2, 5, [], 3, 2, 1⟩, .STORED⟩]
        ⟨none, 7, some 2, 5, [], 6, 4, 2⟩ =
      .done [⟨⟨some 1, 7, some 2, 5, [], 3, 2, 1⟩, .STORED⟩,
        ⟨⟨none, 7, some 2, 5, [], 6, 4, 2⟩, .STORED⟩] := by
  decide

/-- Claim C2, amended: when sender recovery of the new transaction fails,
StoreTransaction performs no cancel and no speed-up — it either fails with
the duplicate error (leaving the store untouched) or breaks out of the
scan and stores the transaction as a fresh STORED record, returning
success.  It does not abort with an error on recovery failure. -/
theorem claim_C2_amended (s : Store) (tx : Core) (h : tx.sender = none) :
    (∃ st, ingest s tx = .failed (.duplicate st)) ∨
      ingest s tx = .done (mapInsert s tx .STORED) :=
  scanGo_no_sender h s s

/-- Witness for claim C2 at a concrete store and transaction. -/
theorem claim_C2_witness :
    (⟨none, 3, some 2, 5, [], 6, 4, 2⟩ : Core).sender = none ∧
    ((∃ st, ingest [⟨⟨some 1, 7, some 2, 5, [], 3, 2, 1⟩, .STORED⟩]
        ⟨none, 3, some 2, 5, [], 6, 4, 2⟩ = .failed (.duplicate st)) ∨
      ingest [⟨⟨some 1, 7, some 2, 5, [], 3, 2, 1⟩, .STORED⟩]
          ⟨none, 3, some 2, 5, [], 6, 4, 2⟩ =
        .done (mapInsert [⟨⟨some 1, 7, some 2, 5, [], 3, 2, 1⟩, .STORED⟩]
          ⟨none, 3, some 2, 5, [], 6, 4, 2⟩ .STORED)) :=
  ⟨rfl, claim_C2_amended _ _ rfl⟩

/-! ### Claim C3 -/

/-- Claim C3: changeTransactionStatus fails with NotFound when the hash is
absent, fails with InvalidTransition when the pair (current, new) is not
in the table {(STORED,CANCELED), (STORED,SPEDUP), (STORED,FAILED),
(STORED,BROADCASTED), (CANCELED,SPEDUP)}, and otherwise writes the new
status at that key.  In the failure cases it returns the error without a
store, leaving the caller's store exactly as it was. -/
theorem claim_C3 (s : Store) (c : Core) (st : Status) :
    changeTransactionStatus s c st =
      match lookupTx s c with
      | none => .error .notFound
      | some e =>
          if (e.status, st) ∈ specTransitionTable then .ok (mapInsert s c st)
          else .error .invalidTransition := by
  unfold changeTransactionStatus
  cases lookupTx s c with
  | none => rfl
  | some e =>
      have htab : (st ∈ allowedTransitions e.status) ↔
          ((e.status, st) ∈ specTransitionTable) := by
        cases e.status <;> cases st <;> decide
      show (if st ∈ allowedTransitions e.status then
            (Except.ok (mapInsert s c st) : Except ChangeErr Store)
          else .error .invalidTransition) =
        (if (e.status, st) ∈ specTransitionTable then .ok (mapInsert s c st)
          else .error .invalidTransition)
      by_cases h : st ∈ allowedTransitions e.status
      · rw [if_pos h, if_pos (htab.mp h)]
      · rw [if_neg h, if_neg (fun hh => h (htab.mpr hh))]

/-! ### Claims C9 and C10 -/

/-- Claim C9: StoreTransaction does not return normally on contract
creation transactions — it dereferences the nil recipient.  First
conjunct: the new transaction has no recipient and a stored record shares
its (sender, nonce), so the cancel-pattern check dereferences the nil
recipient of the new transaction.  Second conjunct: the stored record has
no recipient and the new transaction is not cancel-shaped, so the
speed-up-pattern check dereferences the nil recipient of the stored
record.  Both runs panic instead of classifying. -/
theorem claim_C9_eval :
    ingest [⟨⟨some 1, 7, some 2, 5, [], 3, 2, 1⟩, .STORED⟩]
        ⟨some 1, 7, none, 0, [4], 9, 9, 2⟩ = .panicked ∧
    ingest [⟨⟨some 1, 7, none, 0, [], 3, 2, 1⟩, .STORED⟩]
        ⟨some 1, 7, some 9, 5, [], 9, 9, 2⟩ = .panicked := by
  decide

/-- Claim C10: isValidHexRawTx evaluates the slice of the first two bytes
before checking the length, so the empty string (and any one-byte string)
panics with a slice bound error instead of being rejected; non-string
parameters and well-formed strings take the documented return paths. -/
theorem claim_C10_eval :
    isValidHexRawTx (.str "") = none ∧
    isValidHexRawTx (.str "a") = none ∧
    isValidHexRawTx (.num 123) = some (some "the param is not a string") ∧
    isValidHexRawTx (.str "abcdef") =
      some (some "invalid transaction hex") ∧
    isValidHexRawTx (.str "0xab") = some none := by
  decide

/-! ### Claims C4 and C5 -/

theorem classifyEntry_eq (tx : Core) (e : Entry) {oldFrom newFrom : Nat}
    (hne : e.core ≠ tx) (hspd : e.status ≠ .SPEDUP)
    (hos : e.core.sender = some oldFrom) (hns : tx.sender = some newFrom) :
    classifyEntry tx e =
      if oldFrom = newFrom ∧ tx.nonce = e.core.nonce then
        match tx.toAddr with
        | none => .panic
        | some txTo =>
            if newFrom = txTo ∧ tx.value = 0 ∧ capSum tx > capSum e.core ∧
                tx.data = [] then .cancelHit
            else
              match e.core.toAddr with
              | none => .panic
              | some oldTo =>
                  if txTo = oldTo ∧ tx.value = e.core.value ∧
                      capSum tx > capSum e.core ∧ tx.data = e.core.data then
                    .speedHit
                  else .next
      else .next := by
  unfold classifyEntry
  rw [if_neg hne, if_neg hspd, hos, hns]

theorem classifyEntry_next_of_miss {tx : Core} {e : Entry} {newFrom : Nat}
    (hns : tx.sender = some newFrom) (hne : e.core ≠ tx)
    (hmiss : ¬(e.core.sender = some newFrom ∧ e.core.nonce = tx.nonce)) :
    classifyEntry tx e = .next := by
  by_cases hspd : e.status = .SPEDUP
  · unfold classifyEntry
    rw [if_neg hne, if_pos hspd]
  · cases hos : e.core.sender with
    | none =>
        unfold classifyEntry
        rw [if_neg hne, if_neg hspd, hos]
    | some oldFrom =>
        rw [classifyEntry_eq tx e hne hspd hos hns]
        have hcond : ¬(oldFrom = newFrom ∧ tx.nonce = e.core.nonce) := by
          rintro ⟨h₁, h₂⟩
          exact hmiss ⟨by rw [hos, h₁], h₂.symm⟩
        rw [if_neg hcond]

/-- Entries of the store other than the matched predecessor are passed
over by the scan, given the predecessor is the only record carrying the
transaction's (sender, nonce) and the transaction's hash is fresh. -/
theorem prefix_all_next {tx : Core} {old : Entry} {a : Nat}
    {l₁ l₂ : List Entry}
    (hnd : (keys (l₁ ++ old :: l₂)).Nodup)
    (hsender : tx.sender = some a)
    (huniq : ∀ e ∈ l₁ ++ old :: l₂, e ≠ old →
      ¬(e.core.sender = some a ∧ e.core.nonce = tx.nonce))
    (hnotdup : ∀ e ∈ l₁ ++ old :: l₂, e.core ≠ tx) :
    ∀ e ∈ l₁, classifyEntry tx e = .next := by
  intro e he
  have hmem : e ∈ l₁ ++ old :: l₂ := List.mem_append_left _ he
  have hneold : e ≠ old := by
    intro heq
    have h₁ : old.core ∈ keys l₁ := heq ▸ List.mem_map_of_mem _ he
    have h₂ : old.core ∈ keys (old :: l₂) :=
      List.mem_map_of_mem _ (List.mem_cons_self _ _)
    have hnd' : (keys l₁ ++ keys (old :: l₂)).Nodup := by
      simpa [keys] using hnd
    exact List.disjoint_of_nodup_append hnd' h₁ h₂
  exact classifyEntry_next_of_miss hsender (hnotdup e hmem)
    (huniq e hmem hneold)

/-- Claim C4, counterexample.  A store with two STORED records of the same
(sender, nonce), both with caps below the incoming cancel-shaped transaction.
All the claim's hypotheses hold for the second record, but the scan
reaches the first record first, cancels it, and returns — the second
record (the claim's old) stays STORED. -/
theorem claim_C4_counterexample :
    ((⟨⟨some 1, 7, some 9, 5, [], 4, 3, 2⟩, .STORED⟩ : Entry) ∈
      ([⟨⟨some 1, 7, some 9, 5, [], 3, 2, 1⟩, .STORED⟩,
        ⟨⟨some 1, 7, some 9, 5, [], 4, 3, 2⟩, .STORED⟩] : Store)) ∧
    (⟨some 1, 7, some 1, 0, [], 6, 4, 3⟩ : Core).sender = some 1 ∧
    (⟨some 1, 7, some 9, 5, [], 4, 3, 2⟩ : Core).sender = some 1 ∧
    (⟨some 1, 7, some 1, 0, [], 6, 4, 3⟩ : Core).toAddr = some 1 ∧
    (⟨some 1, 7, some 1, 0, [], 6, 4, 3⟩ : Core).value = 0 ∧
    (⟨some 1, 7, some 1, 0, [], 6, 4, 3⟩ : Core).data = [] ∧
    capSum ⟨some 1, 7, some 1, 0, [], 6, 4, 3⟩ >
      capSum ⟨some 1, 7, some 9, 5, [], 4, 3, 2⟩ ∧
    ingest [⟨⟨some 1, 7, some 9, 5, [], 3, 2, 1⟩, .STORED⟩,
        ⟨⟨some 1, 7, some 9, 5, [], 4, 3, 2⟩, .STORED⟩]
      ⟨some 1, 7, some 1, 0, [], 6, 4, 3⟩ =
      .done [⟨⟨some 1, 7, some 9, 5, [], 3, 2, 1⟩, .CANCELED⟩,
        ⟨⟨some 1, 7, some 9, 5, [], 4, 3, 2⟩, .STORED⟩] := by
  decide

/-- Claim C4, amended: the cancel pattern behaves as the claim states
provided the matched record is the only one in the store carrying the
transaction's (sender, nonce) and the transaction's own hash is not
already a key (otherwise the scan can cancel a different same-(sender,
nonce) record first, or return the duplicate error).  Then ingest
succeeds, flips that record to CANCELED, drops the cancel transaction,
and the store size is unchanged. -/
theorem claim_C4_amended (s : Store) (tx : Core) (old : Entry) (a : Nat)
    (hnd : (keys s).Nodup)
    (hmem : old ∈ s)
    (hst : old.status = .STORED)
    (hsender : tx.sender = some a)
    (holdsender : old.core.sender = some a)
    (hnonce : tx.nonce = old.core.nonce)
    (hto : tx.toAddr = some a)
    (hval : tx.value = 0)
    (hdata : tx.data = [])
    (hcap : capSum tx > capSum old.core)
    (huniq : ∀ e ∈ s, e ≠ old →
      ¬(e.core.sender = some a ∧ e.core.nonce = tx.nonce))
    (hnotdup : ∀ e ∈ s, e.core ≠ tx) :
    ingest s tx = .done (mapInsert s old.core .CANCELED) ∧
    lookupTx (mapInsert s old.core .CANCELED) old.core =
      some ⟨old.core, .CANCELED⟩ ∧
    lookupTx (mapInsert s old.core .CANCELED) tx = none ∧
    (mapInsert s old.core .CANCELED).length = s.length := by
  obtain ⟨l₁, l₂, hsplit⟩ := List.append_of_mem hmem
  subst hsplit
  have hspd : old.status ≠ .SPEDUP := by
    rw [hst]
    exact fun h => Status.noConfusion h
  have hclass : classifyEntry tx old = .cancelHit := by
    rw [classifyEntry_eq tx old (hnotdup old hmem) hspd holdsender hsender,
      if_pos ⟨rfl, hnonce⟩, hto]
    show (if a = a ∧ tx.value = 0 ∧ capSum tx > capSum old.core ∧
        tx.data = [] then EntryAction.cancelHit else _) = _
    rw [if_pos ⟨rfl, hval, hcap, hdata⟩]
  have hch : changeTransactionStatus (l₁ ++ old :: l₂) old.core .CANCELED =
      .ok (mapInsert (l₁ ++ old :: l₂) old.core .CANCELED) :=
    changeTransactionStatus_ok (lookupTx_of_nodup_mem hnd hmem)
      (by rw [hst]; decide)
  have hl₁ := prefix_all_next hnd hsender huniq hnotdup
  have hrun : ingest (l₁ ++ old :: l₂) tx =
      .done (mapInsert (l₁ ++ old :: l₂) old.core .CANCELED) := by
    unfold ingest
    rw [scanGo_append_next hl₁, scanGo_cons, hclass, hch]
  set s : Store := l₁ ++ old :: l₂ with hs
  have htxkeys : tx ∉ keys s := by
    intro h
    obtain ⟨e, he, hce⟩ := List.mem_map.mp h
    exact hnotdup e he hce
  have htxne : tx ≠ old.core := fun h => hnotdup old hmem h.symm
  refine ⟨hrun, lookupTx_mapInsert_self s old.core .CANCELED, ?_, ?_⟩
  · rw [lookupTx_mapInsert_ne s _ htxne]
    exact (lookupTx_eq_none_iff s tx).mpr htxkeys
  · exact length_mapInsert_mem _ (List.mem_map_of_mem _ hmem)

/-- Witness for claim C4: a singleton store holding the predecessor and a
cancel-shaped replacement with higher caps. -/
theorem claim_C4_witness :
    (keys [⟨⟨some 1, 7, some 9, 5, [], 3, 2, 1⟩, .STORED⟩]).Nodup ∧
    (⟨⟨some 1, 7, some 9, 5, [], 3, 2, 1⟩, .STORED⟩ : Entry) ∈
      ([⟨⟨some 1, 7, some 9, 5, [], 3, 2, 1⟩, .STORED⟩] : Store) ∧
    ingest [⟨⟨some 1, 7, some 9, 5, [], 3, 2, 1⟩, .STORED⟩]
        ⟨some 1, 7, some 1, 0, [], 6, 4, 3⟩ =
      .done (mapInsert [⟨⟨some 1, 7, some 9, 5, [], 3, 2, 1⟩, .STORED⟩]
        ⟨some 1, 7, some 9, 5, [], 3, 2, 1⟩ .CANCELED) ∧
    lookupTx (mapInsert [⟨⟨some 1, 7, some 9, 5, [], 3, 2, 1⟩, .STORED⟩]
        ⟨some 1, 7, some 9, 5, [], 3, 2, 1⟩ .CANCELED)
      ⟨some 1, 7, some 1, 0, [], 6, 4, 3⟩ = none :=
  ⟨by decide, by decide,
    (claim_C4_amended [⟨⟨some 1, 7, some 9, 5, [], 3, 2, 1⟩, .STORED⟩]
      ⟨some 1, 7, some 1, 0, [], 6, 4, 3⟩
      ⟨⟨some 1, 7, some 9, 5, [], 3, 2, 1⟩, .STORED⟩ 1
      (by decide) (by decide) (by decide) (by decide) (by decide) (by decide)
      (by decide) (by decide) (by decide) (by decide) (by decide)
      (by decide)).1,
    (claim_C4_amended [⟨⟨some 1, 7, some 9, 5, [], 3, 2, 1⟩, .STORED⟩]
      ⟨some 1, 7, some 1, 0, [], 6, 4, 3⟩
      ⟨⟨some 1, 7, some 9, 5, [], 3, 2, 1⟩, .STORED⟩ 1
      (by decide) (by decide) (by decide) (by decide) (by decide) (by decide)
      (by decide) (by decide) (by decide) (by decide) (by decide)
      (by decide)).2.2.1⟩

theorem bool_ne_true {b : Bool} (h : b = false) : ¬(b = true) := by
  rw [h]
  exact fun hc => Bool.noConfusion hc

theorem bool_eq_false {b : Bool} (h : ¬(b = true)) : b = false := by
  cases b
  · rfl
  · exact absurd rfl h

theorem eligible_eq_true_iff (g : Int) (e : Entry) :
    eligible g e = true ↔ (e.status = .STORED ∧ capSum e.core ≥ g) := by
  unfold eligible
  rw [Bool.and_eq_true, decide_eq_true_eq, decide_eq_true_eq]

theorem applyStatus_lookup_ne (s : Store) (c₀ : Core) (st : Status)
    {c : Core} (h : c ≠ c₀) :
    lookupTx (applyStatus s c₀ st) c = lookupTx s c := by
  unfold applyStatus
  cases hch : changeTransactionStatus s c₀ st with
  | error e => rfl
  | ok s' =>
      obtain ⟨hform, -⟩ := changeTransactionStatus_eq_ok hch
      rw [hform]
      exact lookupTx_mapInsert_ne _ _ h

theorem applyStatus_of_ok {s : Store} {c : Core} {st : Status} {e : Entry}
    (hl : lookupTx s c = some e) (ha : st ∈ allowedTransitions e.status) :
    applyStatus s c st = mapInsert s c st := by
  unfold applyStatus
  rw [changeTransactionStatus_ok hl ha]

theorem monitorStep_eq (oc : Core → SendOutcome) (g : Int)
    (st : TickState) (e : Entry) :
    monitorStep oc g st e =
      if st.blocked then st
      else if eligible g e then
        if st.locked then ⟨st.store, st.sent, st.locked, true⟩
        else
          match oc e.core with
          | .success =>
              ⟨applyStatus st.store e.core .BROADCASTED,
                st.sent ++ [e.core], false, false⟩
          | .rpcError =>
              ⟨applyStatus st.store e.core .FAILED,
                st.sent ++ [e.core], false, false⟩
          | .transportErr =>
              ⟨st.store, st.sent ++ [e.core], true, false⟩
      else st := by
  unfold monitorStep
  by_cases hb : st.blocked = true
  · rw [if_pos hb, if_pos hb]
  · rw [if_neg hb, if_neg hb]
    by_cases h₁ : e.status = .STORED
    · rw [if_pos h₁]
      by_cases h₂ : capSum e.core ≥ g
      · rw [if_pos h₂, if_pos ((eligible_eq_true_iff g e).mpr ⟨h₁, h₂⟩)]
      · rw [if_neg h₂,
          if_neg (fun hel => h₂ ((eligible_eq_true_iff g e).mp hel).2)]
    · rw [if_neg h₁,
        if_neg (fun hel => h₁ ((eligible_eq_true_iff g e).mp hel).1)]

theorem monitorStep_not_eligible (oc : Core → SendOutcome) (g : Int)
    (st : TickState) (e : Entry) (h : eligible g e = false) :
    monitorStep oc g st e = st := by
  rw [monitorStep_eq]
  by_cases hb : st.blocked = true
  · rw [if_pos hb]
  · rw [if_neg hb, if_neg (bool_ne_true h)]

theorem monitorStep_clean_eligible (oc : Core → SendOutcome) (g : Int)
    (st : TickState) (e : Entry) (hl : st.locked = false)
    (hb : st.blocked = false) (he : eligible g e = true) :
    monitorStep oc g st e =
      match oc e.core with
      | .success =>
          ⟨applyStatus st.store e.core .BROADCASTED,
            st.sent ++ [e.core], false, false⟩
      | .rpcError =>
          ⟨applyStatus st.store e.core .FAILED,
            st.sent ++ [e.core], false, false⟩
      | .transportErr =>
          ⟨st.store, st.sent ++ [e.core], true, false⟩ := by
  rw [monitorStep_eq, if_neg (bool_ne_true hb), if_pos he,
    if_neg (bool_ne_true hl)]

theorem monitorStep_sent_cases (oc : Core → SendOutcome) (g : Int)
    (st : TickState) (e : Entry) :
    (monitorStep oc g st e).sent = st.sent ∨
      ((monitorStep oc g st e).sent = st.sent ++ [e.core] ∧
        eligible g e = true) := by
  rw [monitorStep_eq]
  by_cases hb : st.blocked = true
  · rw [if_pos hb]
    exact Or.inl rfl
  · rw [if_neg hb]
    by_cases he : eligible g e = true
    · rw [if_pos he]
      by_cases hl : st.locked = true
      · rw [if_pos hl]
        exact Or.inl rfl
      · rw [if_neg hl]
        cases oc e.core
        · exact Or.inr ⟨rfl, he⟩
        · exact Or.inr ⟨rfl, he⟩
        · exact Or.inr ⟨rfl, he⟩
    · rw [if_neg he]
      exact Or.inl rfl

theorem monitorStep_store_lookup_ne (oc : Core → SendOutcome) (g : Int)
    (st : TickState) (e : Entry) {c : Core} (h : c ≠ e.core) :
    lookupTx (monitorStep oc g st e).store c = lookupTx st.store c := by
  rw [monitorStep_eq]
  by_cases hb : st.blocked = true
  · rw [if_pos hb]
  · rw [if_neg hb]
    by_cases he : eligible g e = true
    · rw [if_pos he]
      by_cases hl : st.locked = true
      · rw [if_pos hl]
      · rw [if_neg hl]
        cases oc e.core
        · exact applyStatus_lookup_ne st.store e.core .BROADCASTED h
        · exact applyStatus_lookup_ne st.store e.core .FAILED h
        · rfl
    · rw [if_neg he]

theorem monitorStep_dirty (oc : Core → SendOutcome) (g : Int)
    (st : TickState) (e : Entry)
    (h : st.locked = true ∨ st.blocked = true) :
    (monitorStep oc g st e).store = st.store ∧
    (monitorStep oc g st e).sent = st.sent ∧
    ((monitorStep oc g st e).locked = true ∨
      (monitorStep oc g st e).blocked = true) := by
  rw [monitorStep_eq]
  by_cases hb : st.blocked = true
  · rw [if_pos hb]
    exact ⟨rfl, rfl, h⟩
  · rw [if_neg hb]
    rcases h with hl | hl
    · by_cases he : eligible g e = true
      · rw [if_pos he, if_pos hl]
        exact ⟨rfl, rfl, Or.inr rfl⟩
      · rw [if_neg he]
        exact ⟨rfl, rfl, Or.inl hl⟩
    · exact absurd hl hb

/-- Once the mutex is held or the goroutine is hung, the rest of the scan
sends nothing and changes nothing: the next eligible entry's Lock blocks
forever. -/
theorem foldl_dirty (oc : Core → SendOutcome) (g : Int) :
    ∀ (l : List Entry) (st : TickState),
      (st.locked = true ∨ st.blocked = true) →
      (List.foldl (monitorStep oc g) st l).store = st.store ∧
      (List.foldl (monitorStep oc g) st l).sent = st.sent ∧
      ((List.foldl (monitorStep oc g) st l).locked = true ∨
        (List.foldl (monitorStep oc g) st l).blocked = true) := by
  intro l
  induction l with
  | nil =>
      intro st h
      exact ⟨rfl, rfl, h⟩
  | cons e rest ih =>
      intro st h
      rw [List.foldl_cons]
      obtain ⟨h₁, h₂, h₃⟩ := monitorStep_dirty oc g st e h
      obtain ⟨g₁, g₂, g₃⟩ := ih (monitorStep oc g st e) h₃
      exact ⟨g₁.trans h₁, g₂.trans h₂, g₃⟩

/-- As long as no eligible entry meets a transport error, the scan keeps
releasing the mutex and sends exactly the eligible entries, in order. -/
theorem foldl_clean (oc : Core → SendOutcome) (g : Int) :
    ∀ (l : List Entry) (st : TickState),
      st.locked = false → st.blocked = false →
      (∀ e ∈ l, eligible g e = true → oc e.core ≠ .transportErr) →
      (List.foldl (monitorStep oc g) st l).sent =
        st.sent ++ (l.filter (eligible g)).map (·.core) ∧
      (List.foldl (monitorStep oc g) st l).locked = false ∧
      (List.foldl (monitorStep oc g) st l).blocked = false := by
  intro l
  induction l with
  | nil =>
      intro st hl hb _
      exact ⟨(List.append_nil _).symm, hl, hb⟩
  | cons e rest ih =>
      intro st hl hb hno
      rw [List.foldl_cons, List.filter_cons]
      by_cases he : eligible g e = true
      · rw [if_pos he]
        have hstep := monitorStep_clean_eligible oc g st e hl hb he
        cases hoc : oc e.core
        · rw [hoc] at hstep
          rw [hstep]
          obtain ⟨s₁, s₂, s₃⟩ := ih
            ⟨applyStatus st.store e.core .BROADCASTED,
              st.sent ++ [e.core], false, false⟩ rfl rfl
            (fun e' he' => hno e' (List.mem_cons_of_mem _ he'))
          refine ⟨?_, s₂, s₃⟩
          rw [s₁, List.map_cons, List.append_assoc, List.singleton_append]
        · rw [hoc] at hstep
          rw [hstep]
          obtain ⟨s₁, s₂, s₃⟩ := ih
            ⟨applyStatus st.store e.core .FAILED,
              st.sent ++ [e.core], false, false⟩ rfl rfl
            (fun e' he' => hno e' (List.mem_cons_of_mem _ he'))
          refine ⟨?_, s₂, s₃⟩
          rw [s₁, List.map_cons, List.append_assoc, List.singleton_append]
        · exact absurd hoc (hno e (List.mem_cons_self _ _) he)
      · rw [if_neg he,
          monitorStep_not_eligible oc g st e (bool_eq_false he)]
        exact ih st hl hb (fun e' he' => hno e' (List.mem_cons_of_mem _ he'))

/-- Everything in the sent list was there already or is the core of an
eligible entry of the scanned list. -/
theorem foldl_sent_mem (oc : Core → SendOutcome) (g : Int) :
    ∀ (l : List Entry) (st : TickState) (c : Core),
      c ∈ (List.foldl (monitorStep oc g) st l).sent →
      c ∈ st.sent ∨ ∃ e ∈ l, e.core = c ∧ eligible g e = true := by
  intro l
  induction l with
  | nil =>
      intro st c h
      exact Or.inl h
  | cons e rest ih =>
      intro st c h
      rw [List.foldl_cons] at h
      rcases ih _ c h with h₁ | ⟨e', he', hc, helig⟩
      · rcases monitorStep_sent_cases oc g st e with hs | ⟨hs, helig⟩
        · rw [hs] at h₁
          exact Or.inl h₁
        · rw [hs] at h₁
          rcases List.mem_append.mp h₁ with h₂ | h₂
          · exact Or.inl h₂
          · rw [List.mem_singleton] at h₂
            exact Or.inr ⟨e, List.mem_cons_self _ _, h₂.symm, helig⟩
      · exact Or.inr ⟨e', List.mem_cons_of_mem _ he', hc, helig⟩

/-- The sent list only grows. -/
theorem foldl_sent_mono (oc : Core → SendOutcome) (g : Int) :
    ∀ (l : List Entry) (st : TickState) (c : Core),
      c ∈ st.sent → c ∈ (List.foldl (monitorStep oc g) st l).sent := by
  intro l
  induction l with
  | nil =>
      intro st c h
      exact h
  | cons e rest ih =>
      intro st c h
      rw [List.foldl_cons]
      refine ih _ c ?_
      rcases monitorStep_sent_cases oc g st e with hs | ⟨hs, -⟩
      · rw [hs]
        exact h
      · rw [hs]
        exact List.mem_append_left _ h

/-- A key carried only by non-eligible entries is looked up unchanged
after the scan. -/
theorem foldl_store_skip (oc : Core → SendOutcome) (g : Int) :
    ∀ (l : List Entry) (st : TickState) (c : Core),
      (∀ e ∈ l, e.core = c → eligible g e = false) →
      lookupTx (List.foldl (monitorStep oc g) st l).store c =
        lookupTx st.store c := by
  intro l
  induction l with
  | nil =>
      intro st c _
      rfl
  | cons e rest ih =>
      intro st c h
      rw [List.foldl_cons,
        ih _ c (fun e' he' => h e' (List.mem_cons_of_mem _ he'))]
      by_cases hc : e.core = c
      · rw [monitorStep_not_eligible oc g st e
          (h e (List.mem_cons_self _ _) hc)]
      · exact monitorStep_store_lookup_ne oc g st e
          (fun hh => hc hh.symm)

/-- An eligible entry that meets a transport error leaves the scan with
the mutex held or the goroutine hung. -/
theorem foldl_dirty_after (oc : Core → SendOutcome) (g : Int) :
    ∀ (l : List Entry) (st : TickState),
      (∃ e ∈ l, eligible g e = true ∧ oc e.core = .transportErr) →
      ((List.foldl (monitorStep oc g) st l).locked = true ∨
        (List.foldl (monitorStep oc g) st l).blocked = true) := by
  intro l
  induction l with
  | nil =>
      rintro st ⟨e, he, -⟩
      cases he
  | cons h rest ih =>
      rintro st ⟨e, he, helig, htr⟩
      rw [List.foldl_cons]
      by_cases hd : (monitorStep oc g st h).locked = true ∨
          (monitorStep oc g st h).blocked = true
      · exact (foldl_dirty oc g rest _ hd).2.2
      · rcases List.mem_cons.mp he with heq | hrest
        · exfalso
          subst heq
          by_cases hstd : st.locked = true ∨ st.blocked = true
          · exact hd (monitorStep_dirty oc g st e hstd).2.2
          · have hl : st.locked = false :=
              bool_eq_false (fun hh => hstd (Or.inl hh))
            have hb : st.blocked = false :=
              bool_eq_false (fun hh => hstd (Or.inr hh))
            have hstep := monitorStep_clean_eligible oc g st e hl hb helig
            rw [htr] at hstep
            refine hd (Or.inl ?_)
            rw [hstep]
        · exact ih _ ⟨e, hrest, helig, htr⟩

/-- An entry of the snapshot that the scan actually sends ends at the
status matching its sendTransaction outcome. -/
theorem foldl_sent_status (oc : Core → SendOutcome) (g : Int) :
    ∀ (l : List Entry) (st : TickState) (e : Entry),
      (l.map (·.core)).Nodup → e ∈ l →
      lookupTx st.store e.core = some e → e.core ∉ st.sent →
      e.core ∈ (List.foldl (monitorStep oc g) st l).sent →
      lookupTx (List.foldl (monitorStep oc g) st l).store e.core =
        some ⟨e.core, broadcastOutcomeStatus (oc e.core)⟩ := by
  intro l
  induction l with
  | nil =>
      intro st e _ he
      cases he
  | cons h rest ih =>
      intro st e hnd he hlook hnotin hsent
      rw [List.foldl_cons] at hsent ⊢
      rcases List.mem_cons.mp he with heq | hrest
      · subst heq
        have hnorest : e.core ∉ rest.map (·.core) :=
          (List.nodup_cons.mp hnd).1
        have hnoadd : ∀ e' ∈ rest, e'.core = e.core → False := by
          intro e' he' hc
          exact hnorest (hc ▸ List.mem_map_of_mem _ he')
        by_cases hsend : (monitorStep oc g st e).sent =
            st.sent ++ [e.core] ∧ eligible g e = true
        · obtain ⟨-, helig⟩ := hsend
          obtain ⟨hst, hcap⟩ := (eligible_eq_true_iff g e).mp helig
          by_cases hstd : st.locked = true ∨ st.blocked = true
          · exfalso
            obtain ⟨-, hs₂, hdirty⟩ := monitorStep_dirty oc g st e hstd
            obtain ⟨-, hf₂, -⟩ := foldl_dirty oc g rest _ hdirty
            rw [hf₂, hs₂] at hsent
            exact hnotin hsent
          · have hl : st.locked = false :=
              bool_eq_false (fun hh => hstd (Or.inl hh))
            have hb : st.blocked = false :=
              bool_eq_false (fun hh => hstd (Or.inr hh))
            have hstep := monitorStep_clean_eligible oc g st e hl hb helig
            have hskip : ∀ e' ∈ rest, e'.core = e.core →
                eligible g e' = false :=
              fun e' he' hc => absurd (hnoadd e' he' hc) not_false
            cases hoc : oc e.core
            · rw [hoc] at hstep
              rw [hstep, foldl_store_skip oc g rest _ e.core hskip]
              show lookupTx (applyStatus st.store e.core .BROADCASTED)
                e.core = _
              rw [applyStatus_of_ok hlook (by rw [hst]; decide),
                lookupTx_mapInsert_self]
              rfl
            · rw [hoc] at hstep
              rw [hstep, foldl_store_skip oc g rest _ e.core hskip]
              show lookupTx (applyStatus st.store e.core .FAILED)
                e.core = _
              rw [applyStatus_of_ok hlook (by rw [hst]; decide),
                lookupTx_mapInsert_self]
              rfl
            · rw [hoc] at hstep
              rw [hstep, foldl_store_skip oc g rest _ e.core hskip]
              show lookupTx st.store e.core = _
              rw [hlook]
              show some (⟨e.core, e.status⟩ : Entry) =
                some (⟨e.core, .STORED⟩ : Entry)
              rw [hst]
        · exfalso
          have hs : (monitorStep oc g st e).sent = st.sent := by
            rcases monitorStep_sent_cases oc g st e with hs | hs
            · exact hs
            · exact absurd hs hsend
          rcases foldl_sent_mem oc g rest _ e.core hsent with hin |
            ⟨e', he', hc, -⟩
          · rw [hs] at hin
            exact hnotin hin
          · exact hnoadd e' he' hc
      · have hcne : e.core ≠ h.core := by
          intro hc
          have hmm : e.core ∈ rest.map (·.core) :=
            List.mem_map_of_mem _ hrest
          rw [hc] at hmm
          exact (List.nodup_cons.mp hnd).1 hmm
        have hlook' : lookupTx (monitorStep oc g st h).store e.core =
            some e := by
          rw [monitorStep_store_lookup_ne oc g st h hcne, hlook]
        have hnotin' : e.core ∉ (monitorStep oc g st h).sent := by
          rcases monitorStep_sent_cases oc g st h with hs | ⟨hs, -⟩
          · rw [hs]
            exact hnotin
          · rw [hs]
            intro hmem
            rcases List.mem_append.mp hmem with h₂ | h₂
            · exact hnotin h₂
            · rw [List.mem_singleton] at h₂
              exact hcne h₂
        exact ih _ e (List.nodup_cons.mp hnd).2 hrest hlook' hnotin' hsent

/-- Claim C7, counterexample.  Two STORED records, both with cap sums at
or above the gas price 1.  The first is sent and its sendTransaction
fails at the transport layer; the monitor returns to the loop without
releasing transactionsMutex, so the second record's Lock hangs the
goroutine: the second record is STORED with cap sum ≥ gas price yet its
raw transaction is never sent, refuting the claimed equivalence. -/
theorem claim_C7_counterexample :
    ((⟨⟨some 1, 2, some 2, 5, [], 2, 1, 2⟩, .STORED⟩ : Entry).status =
        .STORED ∧
      capSum ⟨some 1, 2, some 2, 5, [], 2, 1, 2⟩ ≥ 1) ∧
    (⟨some 1, 2, some 2, 5, [], 2, 1, 2⟩ : Core) ∉
      (monitorTick
        (fun c => if c.raw = 1 then .transportErr else .success) 1
        [⟨⟨some 1, 1, some 2, 5, [], 1, 1, 1⟩, .STORED⟩,
          ⟨⟨some 1, 2, some 2, 5, [], 2, 1, 2⟩, .STORED⟩]).sent := by
  decide

/-- Claim C7, amended: on a tick with fetched gas price g, starting with
the mutex free, the raw transaction of a record e is sent if and only if
e is STORED, its cap sum (as the code computes it, int64-wrapped) is at
least g, and no eligible record earlier in the iteration received a
transport-layer send error — after such an error the monitor keeps the
mutex and hangs on the next eligible record's Lock.  Records with any
other status or with cap sum below g are left exactly as they were. -/
theorem claim_C7_amended (l₁ l₂ : List Entry) (oc : Core → SendOutcome)
    (g : Int) (e : Entry)
    (hnd : (keys (l₁ ++ e :: l₂)).Nodup) :
    (e.core ∈ (monitorTick oc g (l₁ ++ e :: l₂)).sent ↔
      (e.status = .STORED ∧ capSum e.core ≥ g ∧
        ∀ e' ∈ l₁, eligible g e' = true →
          oc e'.core ≠ SendOutcome.transportErr)) ∧
    (¬(e.status = .STORED ∧ capSum e.core ≥ g) →
      lookupTx (monitorTick oc g (l₁ ++ e :: l₂)).store e.core =
        some e) := by
  have hmeme : e ∈ l₁ ++ e :: l₂ :=
    List.mem_append_right _ (List.mem_cons_self _ _)
  have hnotl₁ : ∀ e' ∈ l₁, e'.core ≠ e.core := by
    intro e' he' hc
    have hnd' : (keys l₁ ++ keys (e :: l₂)).Nodup := by
      simpa [keys] using hnd
    exact List.disjoint_of_nodup_append hnd'
      (hc ▸ List.mem_map_of_mem _ he')
      (List.mem_map_of_mem _ (List.mem_cons_self _ _))
  constructor
  · constructor
    · intro hsent
      have helig : eligible g e = true := by
        rcases foldl_sent_mem oc g (l₁ ++ e :: l₂)
          ⟨l₁ ++ e :: l₂, [], false, false⟩ e.core hsent with hin |
          ⟨e', he', hc, helig⟩
        · cases hin
        · have heq : e' = e := entry_eq_of_core_eq hnd he' hmeme hc
          rw [← heq]
          exact helig
      obtain ⟨hst, hcap⟩ := (eligible_eq_true_iff g e).mp helig
      refine ⟨hst, hcap, ?_⟩
      by_contra hno
      push_neg at hno
      obtain ⟨e', he', helig', htr⟩ := hno
      have hdirty := foldl_dirty_after oc g l₁
        ⟨l₁ ++ e :: l₂, [], false, false⟩ ⟨e', he', helig', htr⟩
      have hsent' : e.core ∈ (List.foldl (monitorStep oc g)
          ⟨l₁ ++ e :: l₂, [], false, false⟩ l₁).sent := by
        have hfold : monitorTick oc g (l₁ ++ e :: l₂) =
            List.foldl (monitorStep oc g)
              (List.foldl (monitorStep oc g)
                ⟨l₁ ++ e :: l₂, [], false, false⟩ l₁) (e :: l₂) := by
          unfold monitorTick
          rw [List.foldl_append]
        rw [hfold] at hsent
        rw [← (foldl_dirty oc g (e :: l₂) _ hdirty).2.1]
        exact hsent
      rcases foldl_sent_mem oc g l₁ _ e.core hsent' with hin |
        ⟨e'', he'', hc, -⟩
      · cases hin
      · exact hnotl₁ e'' he'' hc
    · rintro ⟨hst, hcap, hno⟩
      have helig : eligible g e = true :=
        (eligible_eq_true_iff g e).mpr ⟨hst, hcap⟩
      have hclean := foldl_clean oc g l₁
        ⟨l₁ ++ e :: l₂, [], false, false⟩ rfl rfl hno
      have hfold : monitorTick oc g (l₁ ++ e :: l₂) =
          List.foldl (monitorStep oc g)
            (List.foldl (monitorStep oc g)
              ⟨l₁ ++ e :: l₂, [], false, false⟩ l₁) (e :: l₂) := by
        unfold monitorTick
        rw [List.foldl_append]
      rw [hfold, List.foldl_cons]
      refine foldl_sent_mono oc g l₂ _ e.core ?_
      have hstep := monitorStep_clean_eligible oc g
        (List.foldl (monitorStep oc g)
          ⟨l₁ ++ e :: l₂, [], false, false⟩ l₁) e
        hclean.2.1 hclean.2.2 helig
      cases hoc : oc e.core
      · rw [hoc] at hstep
        rw [hstep]
        exact List.mem_append_right _ (List.mem_singleton.mpr rfl)
      · rw [hoc] at hstep
        rw [hstep]
        exact List.mem_append_right _ (List.mem_singleton.mpr rfl)
      · rw [hoc] at hstep
        rw [hstep]
        exact List.mem_append_right _ (List.mem_singleton.mpr rfl)
  · intro hnot
    have hfalse : eligible g e = false := by
      cases hbv : eligible g e
      · rfl
      · exact absurd ((eligible_eq_true_iff g e).mp hbv) hnot
    have hskip : ∀ e' ∈ l₁ ++ e :: l₂, e'.core = e.core →
        eligible g e' = false := by
      intro e' he' hc
      have heq : e' = e := entry_eq_of_core_eq hnd he' hmeme hc
      rw [heq]
      exact hfalse
    show lookupTx (List.foldl (monitorStep oc g)
      ⟨l₁ ++ e :: l₂, [], false, false⟩ (l₁ ++ e :: l₂)).store e.core = _
    rw [foldl_store_skip oc g _ _ e.core hskip]
    exact lookupTx_of_nodup_mem hnd hmeme

/-- Witness for claim C7 at a concrete two-record store: the second
record is eligible at gas price 3, the first entry meets no transport
error, so the second is sent; its non-eligibility branch is vacuous. -/
theorem claim_C7_witness :
    (keys ([⟨⟨some 1, 1, some 2, 5, [], 3, 2, 1⟩, .STORED⟩] ++
      ⟨⟨some 1, 2, some 2, 5, [], 2, 1, 2⟩, .STORED⟩ :: [])).Nodup ∧
    (((⟨⟨some 1, 2, some 2, 5, [], 2, 1, 2⟩, .STORED⟩ : Entry).core ∈
        (monitorTick (fun _ => .success) 3
          ([⟨⟨some 1, 1, some 2, 5, [], 3, 2, 1⟩, .STORED⟩] ++
            ⟨⟨some 1, 2, some 2, 5, [], 2, 1, 2⟩, .STORED⟩ :: [])).sent ↔
      ((Status.STORED = .STORED) ∧
        capSum ⟨some 1, 2, some 2, 5, [], 2, 1, 2⟩ ≥ 3 ∧
        ∀ e' ∈ ([⟨⟨some 1, 1, some 2, 5, [], 3, 2, 1⟩, .STORED⟩] :
            Store), eligible 3 e' = true →
          (fun _ => SendOutcome.success) e'.core ≠
            SendOutcome.transportErr)) ∧
    (¬((Status.STORED = .STORED) ∧
        capSum ⟨some 1, 2, some 2, 5, [], 2, 1, 2⟩ ≥ 3) →
      lookupTx (monitorTick (fun _ => .success) 3
          ([⟨⟨some 1, 1, some 2, 5, [], 3, 2, 1⟩, .STORED⟩] ++
            ⟨⟨some 1, 2, some 2, 5, [], 2, 1, 2⟩, .STORED⟩ :: [])).store
        ⟨some 1, 2, some 2, 5, [], 2, 1, 2⟩ =
        some ⟨⟨some 1, 2, some 2, 5, [], 2, 1, 2⟩, .STORED⟩)) :=
  ⟨by decide,
    claim_C7_amended [⟨⟨some 1, 1, some 2, 5, [], 3, 2, 1⟩, .STORED⟩] []
      (fun _ => .success) 3 ⟨⟨some 1, 2, some 2, 5, [], 2, 1, 2⟩, .STORED⟩
      (by decide)⟩

/-- Claim C8: every broadcast attempt the monitor actually makes on a
stored record (its core is in the tick's sent list) leaves that record at
the status matching the sendTransaction outcome: BROADCASTED on success,
FAILED on a node JSON-RPC error, and still STORED on a transport-layer
error. -/
theorem claim_C8 (s : Store) (oc : Core → SendOutcome) (g : Int)
    (e : Entry) (hnd : (keys s).Nodup) (hmem : e ∈ s)
    (hsent : e.core ∈ (monitorTick oc g s).sent) :
    lookupTx (monitorTick oc g s).store e.core =
      some ⟨e.core, broadcastOutcomeStatus (oc e.core)⟩ :=
  foldl_sent_status oc g s ⟨s, [], false, false⟩ e hnd hmem
    (lookupTx_of_nodup_mem hnd hmem) (fun h => List.not_mem_nil _ h) hsent

/-- Witness for claim C8: a single eligible record whose send reports a
node JSON-RPC error; the attempt is made and the record ends FAILED. -/
theorem claim_C8_witness :
    (keys [⟨⟨some 1, 1, some 2, 5, [], 3, 2, 1⟩, .STORED⟩]).Nodup ∧
    (⟨⟨some 1, 1, some 2, 5, [], 3, 2, 1⟩, .STORED⟩ : Entry) ∈
      ([⟨⟨some 1, 1, some 2, 5, [], 3, 2, 1⟩, .STORED⟩] : Store) ∧
    (⟨some 1, 1, some 2, 5, [], 3, 2, 1⟩ : Core) ∈
      (monitorTick (fun _ => .rpcError) 3
        [⟨⟨some 1, 1, some 2, 5, [], 3, 2, 1⟩, .STORED⟩]).sent ∧
    lookupTx (monitorTick (fun _ => .rpcError) 3
        [⟨⟨some 1, 1, some 2, 5, [], 3, 2, 1⟩, .STORED⟩]).store
      ⟨some 1, 1, some 2, 5, [], 3, 2, 1⟩ =
      some ⟨⟨some 1, 1, some 2, 5, [], 3, 2, 1⟩,
        broadcastOutcomeStatus ((fun _ => SendOutcome.rpcError)
          (⟨some 1, 1, some 2, 5, [], 3, 2, 1⟩ : Core))⟩ :=
  ⟨by decide, by decide, by decide,
    claim_C8 [⟨⟨some 1, 1, some 2, 5, [], 3, 2, 1⟩, .STORED⟩]
      (fun _ => .rpcError) 3
      ⟨⟨some 1, 1, some 2, 5, [], 3, 2, 1⟩, .STORED⟩
      (by decide) (by decide) (by decide)⟩

end TxServer
